import Mathlib

/-!
Verification of the conformer-generation core of RotaConfort
(src/DBGEN/db_gen_functions.py) against its natural-language specification.

Energies and thresholds are modelled as rationals; conformers are identified
by natural-number ids.  The external RMSD engine (Chem.GetBestRMS, wrapped by
get_conf_RMS, line 1458) is modelled as an abstract function
rmsd : ℕ → ℕ → ℚ on conformer ids.
-/

namespace RotaConfort

/-! ## The duplicate-filter loops of min_after_embed (lines 1681–1735)

Both stages of min_after_embed run the same loop shape over an ordered list of
conformer ids, differing only in the duplicate test:

    selected, dups = [], -1
    for i, conf in enumerate(candidates):
        excluded_conf = False
        if i == 0: selected.append(conf)
        for seenconf in selected:
            if dup(conf, seenconf): dups += 1; excluded_conf = True; break
        if excluded_conf == False:
            if conf not in selected: selected.append(conf)

`dupStep` is one iteration of that loop body (`isFirst` is `i == 0`), and
`dupRun` runs it from the initial state `([], -1)`. -/

def dupStep (d : ℕ → ℕ → Bool) (isFirst : Bool) (st : List ℕ × ℤ) (conf : ℕ) :
    List ℕ × ℤ :=
  let acc0 := if isFirst then st.1 ++ [conf] else st.1
  if acc0.any (fun seen => d conf seen) then (acc0, st.2 + 1)
  else if conf ∈ acc0 then (acc0, st.2) else (acc0 ++ [conf], st.2)

def dupRunAux (d : ℕ → ℕ → Bool) (st : List ℕ × ℤ) : List ℕ → List ℕ × ℤ
  | [] => st
  | c :: cs => dupRunAux d (dupStep d false st c) cs

def dupRun (d : ℕ → ℕ → Bool) : List ℕ → List ℕ × ℤ
  | [] => ([], -1)
  | c :: cs => dupRunAux d (dupStep d true ([], -1) c) cs

/-- Stage-A duplicate test of min_after_embed (lines 1690–1695): the candidate
is a prefilter duplicate of `seen` iff their energies differ by less than
`initial_energy_threshold`. -/
def stageA_dup (t1 : ℚ) (E : ℕ → ℚ) (conf seen : ℕ) : Bool :=
  decide (|E conf - E seen| < t1)

/-- Stage-B duplicate test of min_after_embed (lines 1723–1730): the candidate
is a geometry duplicate of `seen` iff the energy difference is below
`energy_threshold` and the best-fit RMSD (computed, after the dihedral reset of
line 1714–1715, as `get_conf_RMS(outmols[conf], outmols[conf], seenconf, conf, …)`)
is below `rms_threshold`. -/
def stageB_dup (t2 r : ℚ) (E : ℕ → ℚ) (rmsd : ℕ → ℕ → ℚ) (conf seen : ℕ) : Bool :=
  decide (|E conf - E seen| < t2) && decide (rmsd seen conf < r)

/-- The processing relation of the energy sort at line 1678:
`sortedcids = sorted(cids, key=lambda cid: cenergy[cid])`. -/
def energyLE (E : ℕ → ℚ) (a b : ℕ) : Prop := E a ≤ E b

instance (E : ℕ → ℚ) : DecidableRel (energyLE E) :=
  fun a b => inferInstanceAs (Decidable (E a ≤ E b))

instance (E : ℕ → ℚ) : IsTotal ℕ (energyLE E) :=
  ⟨fun a b => le_total (E a) (E b)⟩

instance (E : ℕ → ℚ) : IsTrans ℕ (energyLE E) :=
  ⟨fun _ _ _ h1 h2 => le_trans h1 h2⟩

/-- Energy sort of the candidate ids (line 1678); Python's `sorted` is a stable
sort, modelled by insertion sort. -/
def sortByEnergy (E : ℕ → ℚ) (l : List ℕ) : List ℕ :=
  List.insertionSort (energyLE E) l

/-- The two-stage Duplicate Filter of min_after_embed (lines 1673–1744):
energy-sort the ids, run the coarse energy prefilter (stage A, counter
`eng_dup` starting at −1), then run the energy+RMSD filter (stage B, counter
`eng_rms_dup` starting at −1) on the stage-A survivors.  Returns
(`selectedcids`, `eng_dup`, `eng_rms_dup`) — the values recorded in the
summary row at lines 1742–1744. -/
def min_after_embed_filter (t1 t2 r : ℚ) (E : ℕ → ℚ) (rmsd : ℕ → ℕ → ℚ)
    (cids : List ℕ) : List ℕ × ℤ × ℤ :=
  let sorted := sortByEnergy E cids
  let a := dupRun (stageA_dup t1 E) sorted
  let b := dupRun (stageB_dup t2 r E rmsd) a.1
  (b.1, a.2, b.2)

/-! ## The single-pass filter of filter_after_rotation (lines 1782–1825)

    rd_count, rd_selectedcids, rd_dup_energy, rd_dup_rms_eng = 0, [], -1, 0
    for i, rd_mol_i in enumerate(rdmols):
        excluded_conf = False
        if rd_count == 0: rd_selectedcids.append(rd_mol_i); write
        rd_count = 1
        for rd_mol_j in rd_selectedcids:
            if |E_i - E_j| < initial_energy_threshold:
                excluded_conf = True; rd_dup_energy += 1; break
            if |E_i - E_j| < energy_threshold:
                if RMS(mol_rd, rd_mol_j) < rms_threshold:
                    excluded_conf = True; rd_dup_rms_eng += 1; break
        if excluded_conf == False and rd_mol_i not in rd_selectedcids:
            rd_selectedcids.append(rd_mol_i); write

The conformers read from the SDF file are modelled by their ids, with `E`
giving the float of the stored Energy property. -/

/-- Inner-loop exit test of filter_after_rotation for candidate `cand` against
an accepted `seen` (lines 1803–1812): the loop breaks at the first `seen`
matching this disjunction, the first disjunct counting into `rd_dup_energy`
and the second into `rd_dup_rms_eng`.  The RMSD call is
`get_conf_RMS(mol_rd, rd_mol_j, -1, -1, …)`, candidate first. -/
def rotDupCheck (t1 t2 r : ℚ) (E : ℕ → ℚ) (rmsd : ℕ → ℕ → ℚ)
    (cand seen : ℕ) : Bool :=
  decide (|E cand - E seen| < t1)
    || (decide (|E cand - E seen| < t2) && decide (rmsd cand seen < r))

def rotStep (t1 t2 r : ℚ) (E : ℕ → ℚ) (rmsd : ℕ → ℕ → ℚ) (isFirst : Bool)
    (st : List ℕ × ℤ × ℤ) (m : ℕ) : List ℕ × ℤ × ℤ :=
  let acc0 := if isFirst then st.1 ++ [m] else st.1
  match acc0.find? (fun j => rotDupCheck t1 t2 r E rmsd m j) with
  | some j =>
      if |E m - E j| < t1 then (acc0, st.2.1 + 1, st.2.2)
      else (acc0, st.2.1, st.2.2 + 1)
  | none => (if m ∈ acc0 then acc0 else acc0 ++ [m], st.2.1, st.2.2)

def rotRunAux (t1 t2 r : ℚ) (E : ℕ → ℚ) (rmsd : ℕ → ℕ → ℚ)
    (st : List ℕ × ℤ × ℤ) : List ℕ → List ℕ × ℤ × ℤ
  | [] => st
  | c :: cs => rotRunAux t1 t2 r E rmsd (rotStep t1 t2 r E rmsd false st c) cs

/-- The whole pass of filter_after_rotation, from the initial state
`([], -1, 0)` (line 1783), in file order.  Returns
(`rd_selectedcids`, `rd_dup_energy`, `rd_dup_rms_eng`). -/
def rot_run (t1 t2 r : ℚ) (E : ℕ → ℚ) (rmsd : ℕ → ℕ → ℚ) :
    List ℕ → List ℕ × ℤ × ℤ
  | [] => ([], -1, 0)
  | c :: cs =>
      rotRunAux t1 t2 r E rmsd (rotStep t1 t2 r E rmsd true ([], -1, 0) c) cs

/-! ## The refinement pass mult_min (lines 2020–2105) -/

/-- One refined conformer as mult_min sees it after `optimize` returns
(line 2038): a geometry id for RMSD purposes, the convergence flag (0 means
converged) and the semi-empirical energy. -/
structure RefConf where
  cid : ℕ
  converged : ℤ
  energy : ℚ
deriving DecidableEq

/-- Loop state of mult_min (lines 2026–2027): `globmin, n_high, n_dup_energy,
n_dup_rms_eng = None, 0, 0, 0` plus the parallel `outmols`/`c_energy`
accumulators (energies are carried inside `RefConf`). -/
structure MultMinState where
  globmin : Option ℚ
  nHigh : ℕ
  nDupEnergy : ℕ
  nDupRms : ℕ
  outmols : List RefConf
deriving DecidableEq

/-- The update `if globmin == None: globmin = energy; if energy < globmin:
globmin = energy` (lines 2040–2043): the running minimum after folding in one more
energy. -/
def optMin : Option ℚ → ℚ → ℚ
  | none, e => e
  | some g, e => min g e

/-- Inner duplicate test of mult_min for candidate `c` against accepted `s`
(lines 2049–2060); the loop breaks at the first accepted conformer matching
this disjunction, the first disjunct counting into `n_dup_energy` and the
second into `n_dup_rms_eng`.  The RMSD call is
`get_conf_RMS(mol, seenmol, 0, 0, …)`, candidate first. -/
def refDupCheck (t1 t2 r : ℚ) (rmsd : ℕ → ℕ → ℚ) (c s : RefConf) : Bool :=
  decide (|c.energy - s.energy| < t1)
    || (decide (|c.energy - s.energy| < t2) && decide (rmsd c.cid s.cid < r))

/-- One iteration of the mult_min loop (lines 2033–2071): a `None` molecule is
skipped; otherwise the running minimum is updated first, then the conformer is
either rejected as high-energy (`n_high`, non-convergent or outside the
`ewin` window) or compared against the accepted set, ending as an energy
duplicate, an RMSD duplicate, or a new member of `outmols`. -/
def mult_min_step (ewin t1 t2 r : ℚ) (rmsd : ℕ → ℕ → ℚ) (st : MultMinState) :
    Option RefConf → MultMinState
  | none => st
  | some c =>
    let g := optMin st.globmin c.energy
    if c.converged = 0 ∧ |c.energy - g| < ewin then
      match st.outmols.find? (fun s => refDupCheck t1 t2 r rmsd c s) with
      | some s =>
          if |c.energy - s.energy| < t1 then
            { st with globmin := some g, nDupEnergy := st.nDupEnergy + 1 }
          else
            { st with globmin := some g, nDupRms := st.nDupRms + 1 }
      | none => { st with globmin := some g, outmols := st.outmols ++ [c] }
    else { st with globmin := some g, nHigh := st.nHigh + 1 }

/-- The whole mult_min pass over the input ensemble in file order. -/
def mult_min_run (ewin t1 t2 r : ℚ) (rmsd : ℕ → ℕ → ℚ)
    (inmols : List (Option RefConf)) : MultMinState :=
  inmols.foldl (mult_min_step ewin t1 t2 r rmsd)
    { globmin := none, nHigh := 0, nDupEnergy := 0, nDupRms := 0, outmols := [] }

/-- The globmin update of one mult_min iteration (lines 2040–2043), folded
over the input list: a `None` molecule leaves it unchanged. -/
def globminUpd (g : Option ℚ) : Option RefConf → Option ℚ
  | none => g
  | some c => some (optMin g c.energy)

/-- Energies of the non-`None` conformers processed so far, in order. -/
def processedEnergies (l : List (Option RefConf)) : List ℚ :=
  (l.filterMap id).map RefConf.energy

/-- The least energy among all conformers processed so far (`none` when none
was processed yet). -/
def leastEnergySoFar (l : List (Option RefConf)) : Option ℚ :=
  match processedEnergies l with
  | [] => none
  | e :: es => some (es.foldl min e)

/-! ## auto_sampling (lines 1466–1478) -/

/-- The sampler `auto_sampling(mult_factor, mol, args, log)`: the molecule is abstracted to
its three descriptor counts (`Lipinski.NumRotatableBonds`, `Lipinski.NHOHCount`,
`Lipinski.NumSaturatedRings`) and `args` to the `metal_complex` flag and
`len(args.metal_idx)`.  A pure function: no state is read or written. -/
def auto_sampling (mult_factor : ℕ) (metal_complex : Bool) (numMetalIdx : ℕ)
    (rotB nhoh satRings : ℕ) : ℕ :=
  let mf := if metal_complex = true ∧ 0 < numMetalIdx
            then mult_factor * 3 * numMetalIdx else mult_factor
  let auto_samples := 3 * rotB + 3 * nhoh + 3 * satRings
  if auto_samples = 0 then mf else mf * auto_samples

/-- Modelled from the spec's words (§4.1) for comparison with `auto_sampling`:
raw = 3×rotatable_bonds + 3×polar_H_donor_count + 3×saturated_ring_count; if
raw = 0 the result is the multiplier, else multiplier × raw, the multiplier
being pre-scaled by 3 × metal_center_count for a metal complex with at least
one metal center. -/
def estimate_initial_samples_spec (multiplier : ℕ) (metal : Bool)
    (metalCount rotB polarH satRings : ℕ) : ℕ :=
  let m := if metal = true ∧ 0 < metalCount then multiplier * (3 * metalCount)
           else multiplier
  let raw := 3 * rotB + 3 * polarH + 3 * satRings
  if raw = 0 then m else m * raw

/-! ## embed_conf (lines 1591–1608) -/

/-- The embedding adapter `embed_conf`: the external engine (rdDistGeom.EmbedMultipleConfs) is
abstracted to the two id lists it can return — `r1` for the primary call with
standard settings and `r2` for the retry call with `useRandomCoords=True,
boxSizeMult=10.0, numZeroFail=1000`.  The retry guard is line 1594,
`if len(cids) == 0 or len(cids) == 1 and initial_confs != 1` (Python
precedence: `A or (B and C)`).  The second component records whether the retry
was performed; the result is returned as-is, whatever its length. -/
def embed_conf (initial_confs : ℕ) (r1 r2 : List ℕ) : List ℕ × Bool :=
  if r1.length = 0 ∨ (r1.length = 1 ∧ initial_confs ≠ 1) then (r2, true)
  else (r1, false)

/-! ## summ_search / conformer_generation control flow
(lines 1842–1895 and 468–497) -/

/-- Outcome of one molecule's trip through summ_search and the refinement
dispatch of conformer_generation. `refineInput = some true` means mult_min ran
on the rotated ensemble, `some false` on the non-rotated `_rdkit` ensemble,
`none` that no refinement ran at all. -/
structure GenOutcome where
  status : ℤ
  ranEmbedMin : Bool
  ranRotFilter : Bool
  refineInput : Option Bool
  loggedSkip : Bool
deriving DecidableEq

/-- Control flow of summ_search (lines 1858–1895): if the rotatable-bond count
exceeds `max_torsions` the skip is logged and status −1 is returned at once —
before any embedding, minimization or filtering.  Otherwise min_after_embed
runs (returning 1, line 1766), and afterwards: with dihedrals enabled and at
least one rotatable bond, filter_after_rotation runs (status 1); with
dihedrals enabled but no rotatable bond, status becomes 0; with `nodihedrals`,
status stays 1.  Result: (status, ran min_after_embed, ran
filter_after_rotation, logged the too-many-torsions skip). -/
def summ_search_model (numRot maxTor : ℕ) (nodihedrals : Bool) :
    ℤ × Bool × Bool × Bool :=
  if maxTor < numRot then (-1, false, false, true)
  else if nodihedrals = false ∧ numRot ≠ 0 then (1, true, true, false)
  else if nodihedrals = false ∧ numRot = 0 then (0, true, false, false)
  else (1, true, false, false)

/-- Refinement dispatch of conformer_generation (lines 476–497):
`gen = summ_search(...)`; if `gen != -1`, mult_min runs — on the `_rdkit`
ensemble when `nodihedrals`, on the `_rdkit_rotated` ensemble when `gen != 0`,
and on the `_rdkit` ensemble when `gen == 0`; if `gen == -1` nothing further
happens for the molecule. `refineRequested` models `args.xtb`/`args.ANI1ccx`
being enabled. -/
def conformer_generation_model (numRot maxTor : ℕ)
    (nodihedrals refineRequested : Bool) : GenOutcome :=
  let s := summ_search_model numRot maxTor nodihedrals
  let gen := s.1
  let refineInput :=
    if refineRequested = false then none
    else if gen = -1 then none
    else if nodihedrals = true then some false
    else if gen ≠ 0 then some true
    else some false
  { status := gen, ranEmbedMin := s.2.1, ranRotFilter := s.2.2.1,
    refineInput := refineInput, loggedSkip := s.2.2.2 }

/-! ## The convergence flag of optimize (lines 1944–1996) -/

/-- Convergence-flag logic of `optimize` (xtb branch, lines 1975–1990; the ani
branch at 1944–1949 has the same shape): after `optimizer.run(fmax, steps)`,
the local variable `converged` is assigned (to 0, meaning converged) only
inside `if len(ase.io.Trajectory(...)) != (args.opt_steps + 1)`.  When the
optimizer exhausts its full iteration budget the trajectory has exactly
`opt_steps + 1` frames, the branch is not taken, and line 1990 reads
`converged` unbound — a Python UnboundLocalError, modelled as `none`. -/
def optimize_converged_flag (trajLen optSteps : ℕ) : Option ℤ :=
  if trajLen ≠ optSteps + 1 then some 0 else none

/-- A concrete mult_min loop state used to instantiate the per-step policy
statements on an explicit input. -/
def sampleState : MultMinState :=
  { globmin := none, nHigh := 0, nDupEnergy := 0, nDupRms := 0, outmols := [] }

/-- A concrete refined conformer (converged, energy 0) used to instantiate the
per-step policy statements on an explicit input. -/
def sampleConf : RefConf := { cid := 0, converged := 0, energy := 0 }

/-! ## Examination orders of the three filtering passes -/

/-- Order in which the minimization-stage pass examines its candidates:
`sortedcids = sorted(cids, key=lambda cid: cenergy[cid])` (line 1678), also
the iteration order of stage B since stage A appends in iteration order. -/
def min_after_embed_order (E : ℕ → ℚ) (cids : List ℕ) : List ℕ :=
  sortByEnergy E cids

/-- Order in which the post-rotation pass examines its candidates:
`for i, rd_mol_i in enumerate(rdmols)` (line 1784) — the SDF file order, i.e.
the depth-first emission order of the torsion enumerator, with no sort. -/
def filter_after_rotation_order (rdmols : List ℕ) : List ℕ := rdmols

/-- Order in which the refinement pass examines its candidates:
`for i, mol in enumerate(inmols)` (line 2033) — input file order, no sort. -/
def mult_min_order (inmols : List (Option RefConf)) : List (Option RefConf) :=
  inmols

/-! ## The torsion enumerator genConformer_r (lines 1506–1541) -/

/-- The angle loop of genConformer_r (lines 1521–1540):
`deg = 0; while deg < 360.0: …; deg += degree`, collecting the grid angles it
visits.  The degree step is taken as a positive integer number of degrees (the
source would not terminate for `degree == 0`; that case is mapped to `[]` by
the guard). -/
def angleLoop (degree : ℕ) (deg : ℕ) : List ℕ :=
  if _h : 0 < degree ∧ deg < 360 then deg :: angleLoop degree (deg + degree)
  else []
termination_by 360 - deg
decreasing_by omega

/-- Number of geometries emitted by `genConformer_r(mol, conf, i, matches, …)`
as a function of the remaining recursion depth `len(matches) - i`: the base
case (line 1507–1516) writes one record and returns 1; otherwise the loop
accumulates `total += genConformer_r(…, i+1, …)` once per grid angle
(lines 1520–1541). -/
def genConformer_r_count : ℕ → ℕ → ℕ
  | 0, _ => 1
  | m + 1, degree => ((angleLoop degree 0).map (fun _ => genConformer_r_count m degree)).sum

/-- The accumulation loop of min_after_embed (lines 1758–1763):
`total = 0; for conf in selectedcids: total += genConformer_r(…, 0, rotmatches, …)`.
This `total` is the value written to `RDKIT-Rotated-conformers` (line 1768). -/
def min_after_embed_total (selectedcids : List ℕ) (numMatches degree : ℕ) : ℕ :=
  (selectedcids.map (fun _ => genConformer_r_count numMatches degree)).sum

lemma sum_map_const_nat {α : Type} (l : List α) (c : ℕ) :
    (l.map (fun _ => c)).sum = l.length * c := by
  induction l with
  | nil => simp
  | cons x xs ih => simp [ih, Nat.succ_mul, Nat.add_comm]

lemma angleLoop_length (d : ℕ) (hd : 0 < d) :
    ∀ n a, 360 - a ≤ n → (angleLoop d a).length = (360 - a + d - 1) / d := by
  intro n
  induction n with
  | zero =>
    intro a ha
    have h360 : ¬ a < 360 := by omega
    rw [angleLoop, dif_neg (by omega)]
    have h0 : 360 - a = 0 := by omega
    rw [h0, List.length_nil]
    exact (Nat.div_eq_of_lt (by omega)).symm
  | succ n ih =>
    intro a ha
    by_cases h : a < 360
    · rw [angleLoop, dif_pos ⟨hd, h⟩]
      have hrec : (angleLoop d (a + d)).length = (360 - (a + d) + d - 1) / d :=
        ih (a + d) (by omega)
      rw [List.length_cons, hrec]
      set m := 360 - a with hm
      have hm1 : 1 ≤ m := by omega
      have hsub : 360 - (a + d) = m - d := by omega
      rw [hsub]
      by_cases hmd : d ≤ m
      · have e1 : m + d - 1 = (m - d + d - 1) + d := by omega
        rw [e1, Nat.add_div_right _ hd]
      · have e2 : m - d = 0 := by omega
        rw [e2]
        have e3 : (0 + d - 1) / d = 0 := Nat.div_eq_of_lt (by omega)
        rw [e3]
        have e4 : m + d - 1 = (m - 1) + d := by omega
        rw [e4, Nat.add_div_right _ hd, Nat.div_eq_of_lt (by omega)]
    · rw [angleLoop, dif_neg (by omega)]
      have h0 : 360 - a = 0 := by omega
      rw [h0, List.length_nil]
      exact (Nat.div_eq_of_lt (by omega)).symm

lemma angleLoop_mem (d : ℕ) :
    ∀ n a, 360 - a ≤ n → ∀ x ∈ angleLoop d a, x < 360 ∧ ∃ k, x = a + k * d := by
  intro n
  induction n with
  | zero =>
    intro a ha x hx
    rw [angleLoop] at hx
    rcases Nat.lt_or_ge a 360 with h | h
    · omega
    · rw [dif_neg (by omega)] at hx
      exact absurd hx (List.not_mem_nil x)
  | succ n ih =>
    intro a ha x hx
    rw [angleLoop] at hx
    by_cases h : 0 < d ∧ a < 360
    · rw [dif_pos h] at hx
      rcases List.mem_cons.mp hx with rfl | hx
      · exact ⟨h.2, 0, by omega⟩
      · obtain ⟨hlt, k, hk⟩ := ih (a + d) (by omega) x hx
        exact ⟨hlt, k + 1, by rw [hk]; ring⟩
    · rw [dif_neg h] at hx
      exact absurd hx (List.not_mem_nil x)

lemma angleLoop_head (d : ℕ) (hd : 0 < d) : (angleLoop d 0).head? = some 0 := by
  rw [angleLoop, dif_pos ⟨hd, by omega⟩]
  rfl

lemma angleLoop_length_dvd (d : ℕ) (hd : 0 < d) (hdvd : d ∣ 360) :
    (angleLoop d 0).length = 360 / d := by
  rw [angleLoop_length d hd 360 0 (by omega), Nat.sub_zero]
  obtain ⟨q, hq⟩ := hdvd
  have e1 : d * q + d - 1 = d * q + (d - 1) := by omega
  rw [hq, e1, Nat.mul_add_div hd, Nat.div_eq_of_lt (by omega),
    Nat.mul_div_cancel_left q hd, Nat.add_zero]

lemma genConformer_r_count_pow (d : ℕ) :
    ∀ m, genConformer_r_count m d = (angleLoop d 0).length ^ m := by
  intro m
  induction m with
  | zero => rfl
  | succ m ih =>
    rw [genConformer_r_count, sum_map_const_nat, ih, pow_succ, Nat.mul_comm]

/-- C3: for a positive integer degree step `d`, the angle loop of the torsion
enumerator visits exactly `⌈360/d⌉` grid angles (here `(360 + d − 1) / d` in
natural-number arithmetic), starting at 0 inclusive and staying below 360 (all
of them multiples of `d`); and when `d` evenly divides 360 the accumulated
total of emitted geometries — the value recorded as the rotated-conformer
count — equals `|selectedcids| × (360/d)^|rotmatches|`. -/
theorem torsion_grid_and_total (d numMatches : ℕ) (selectedcids : List ℕ)
    (hd : 0 < d) :
    (angleLoop d 0).length = (360 + d - 1) / d
    ∧ (angleLoop d 0).head? = some 0
    ∧ (∀ x ∈ angleLoop d 0, x < 360 ∧ d ∣ x)
    ∧ (d ∣ 360 →
        min_after_embed_total selectedcids numMatches d
          = selectedcids.length * (360 / d) ^ numMatches) := by
  refine ⟨?_, angleLoop_head d hd, ?_, ?_⟩
  · have := angleLoop_length d hd 360 0 (by omega)
    rwa [Nat.sub_zero] at this
  · intro x hx
    obtain ⟨hlt, k, hk⟩ := angleLoop_mem d 360 0 (by omega) x hx
    exact ⟨hlt, ⟨k, by rw [hk]; ring⟩⟩
  · intro hdvd
    rw [min_after_embed_total, sum_map_const_nat, genConformer_r_count_pow,
      angleLoop_length_dvd d hd hdvd]

/-- Witness for C3 at a concrete input: degree step 120 over 1 rotatable bond
and 3 selected conformers. -/
theorem torsion_grid_and_total_witness :
    0 < 120
    ∧ ((angleLoop 120 0).length = (360 + 120 - 1) / 120
        ∧ (angleLoop 120 0).head? = some 0
        ∧ (∀ x ∈ angleLoop 120 0, x < 360 ∧ 120 ∣ x)
        ∧ (120 ∣ 360 →
            min_after_embed_total [0, 1, 2] 1 120
              = ([0, 1, 2] : List ℕ).length * (360 / 120) ^ 1)) :=
  ⟨by decide, torsion_grid_and_total 120 1 [0, 1, 2] (by decide)⟩

/-! ## Theorems for the simpler claims -/

/-- C6: `auto_sampling` computes raw = 3×rotatable_bonds + 3×polar_H_donors +
3×saturated_rings and returns the (possibly pre-scaled) multiplier when
raw = 0 and multiplier × raw otherwise, the multiplier being first multiplied
by 3 × metal_center_count for a metal complex with at least one metal center.
It is a pure Lean function of its arguments, hence deterministic and free of
side effects. -/
theorem auto_sampling_matches_contract (mult : ℕ) (metal : Bool)
    (metalCount rotB nhoh satRings : ℕ) :
    auto_sampling mult metal metalCount rotB nhoh satRings
      = estimate_initial_samples_spec mult metal metalCount rotB nhoh satRings := by
  unfold auto_sampling estimate_initial_samples_spec
  by_cases h : metal = true ∧ 0 < metalCount
  · simp only [if_pos h, mul_assoc]
  · simp only [if_neg h]

/-- C8: the embedding adapter retries exactly once, and it does so iff the
primary call returned zero ids, or exactly one id while the requested count is
greater than 1; the final result is the raw engine output of whichever call
was last (possibly shorter than the request — returned, not treated as an
error).  The hypothesis is the engine contract that it never returns more ids
than requested. -/
theorem embed_conf_retry_policy (n : ℕ) (r1 r2 : List ℕ)
    (hle : r1.length ≤ n) :
    ((embed_conf n r1 r2).2 = true ↔ (r1 = [] ∨ (r1.length = 1 ∧ 1 < n)))
    ∧ (embed_conf n r1 r2).1 = (if (embed_conf n r1 r2).2 then r2 else r1) := by
  unfold embed_conf
  by_cases h : r1.length = 0 ∨ (r1.length = 1 ∧ n ≠ 1)
  · rw [if_pos h]
    refine ⟨⟨fun _ => ?_, fun _ => rfl⟩, rfl⟩
    rcases h with h0 | ⟨h1, hn⟩
    · exact Or.inl (List.length_eq_zero.mp h0)
    · exact Or.inr ⟨h1, by omega⟩
  · rw [if_neg h]
    refine ⟨⟨fun hf => absurd hf (by simp), fun hc => absurd ?_ h⟩, rfl⟩
    rcases hc with h0 | ⟨h1, hn⟩
    · exact Or.inl (by simp [h0])
    · exact Or.inr ⟨h1, by omega⟩

/-- Witness for C8 at a concrete input: the primary call yielded a single id
while 5 were requested, so the retry fires and its result is returned. -/
theorem embed_conf_retry_policy_witness :
    ([7] : List ℕ).length ≤ 5
    ∧ (((embed_conf 5 [7] [1, 2, 3]).2 = true
          ↔ (([7] : List ℕ) = [] ∨ (([7] : List ℕ).length = 1 ∧ 1 < 5)))
        ∧ (embed_conf 5 [7] [1, 2, 3]).1
            = (if (embed_conf 5 [7] [1, 2, 3]).2 then [1, 2, 3] else [7])) :=
  ⟨by decide, embed_conf_retry_policy 5 [7] [1, 2, 3] (by decide)⟩

/-- C2 counterexample: for a molecule with 2 rotatable bonds and
max_torsions = 1 (dihedral scan on, refinement requested), the claim says only
the torsion-enumeration stage is skipped and the pipeline continues with the
non-rotated ensemble; the code instead skips the molecule entirely —
min_after_embed never runs and no refinement runs on any ensemble. -/
theorem max_torsions_no_fallback_cex :
    (conformer_generation_model 2 1 false true).ranEmbedMin = false
    ∧ (conformer_generation_model 2 1 false true).refineInput = none := by
  decide

/-- C2 amended: for every molecule whose rotatable-bond count exceeds
max_torsions, summ_search logs the reason and returns −1 before any embedding
or filtering, and conformer_generation then runs no refinement for that
molecule: the molecule is skipped entirely, with no fallback to a non-rotated
ensemble. -/
theorem max_torsions_skips_molecule (numRot maxTor : ℕ)
    (nodihedrals refineRequested : Bool) (h : maxTor < numRot) :
    conformer_generation_model numRot maxTor nodihedrals refineRequested
      = { status := -1, ranEmbedMin := false, ranRotFilter := false,
          refineInput := none, loggedSkip := true } := by
  unfold conformer_generation_model summ_search_model
  simp only [if_pos h]
  simp

/-- Witness for C2 amended at a concrete input (2 rotatable bonds,
max_torsions = 1). -/
theorem max_torsions_skips_molecule_witness :
    1 < 2
    ∧ conformer_generation_model 2 1 false true
      = { status := -1, ranEmbedMin := false, ranRotFilter := false,
          refineInput := none, loggedSkip := true } :=
  ⟨by decide, max_torsions_skips_molecule 2 1 false true (by decide)⟩

/-- C5: at the failing input — a refinement conformer whose optimizer uses its
full iteration budget (trajectory length = opt_steps + 1, here with
opt_steps = 100) — the convergence flag of `optimize` is read before being
assigned: the code raises UnboundLocalError and aborts the batch instead of
softly rejecting the conformer and continuing. -/
theorem optimize_nonconvergence_unbound :
    optimize_converged_flag (100 + 1) 100 = none := by
  decide

/-! ## Invariants of the shared duplicate-filter loop -/

lemma dupStep_false_eq (d : ℕ → ℕ → Bool) (st : List ℕ × ℤ) (c : ℕ) :
    dupStep d false st c =
      if st.1.any (fun seen => d c seen) then (st.1, st.2 + 1)
      else if c ∈ st.1 then (st.1, st.2) else (st.1 ++ [c], st.2) := by
  simp [dupStep]

lemma dupStep_true_start (d : ℕ → ℕ → Bool) (c : ℕ) :
    dupStep d true ([], -1) c = ([c], if d c c = true then 0 else -1) := by
  by_cases h : d c c = true
  · simp [dupStep, h]
  · simp [dupStep, h]

lemma dupRunAux_cons (d : ℕ → ℕ → Bool) (st : List ℕ × ℤ) (c : ℕ)
    (cs : List ℕ) :
    dupRunAux d st (c :: cs) = dupRunAux d (dupStep d false st c) cs := rfl

lemma dupRunAux_sublist (d : ℕ → ℕ → Bool) :
    ∀ (l : List ℕ) (st : List ℕ × ℤ),
      ∃ t, (dupRunAux d st l).1 = st.1 ++ t ∧ t.Sublist l := by
  intro l
  induction l with
  | nil =>
    intro st
    exact ⟨[], by simp [dupRunAux], List.nil_sublist _⟩
  | cons c cs ih =>
    intro st
    rw [dupRunAux_cons, dupStep_false_eq]
    by_cases hany : st.1.any (fun seen => d c seen) = true
    · rw [if_pos hany]
      obtain ⟨t, ht, hs⟩ := ih (st.1, st.2 + 1)
      exact ⟨t, ht, hs.cons c⟩
    · rw [if_neg hany]
      by_cases hmem : c ∈ st.1
      · rw [if_pos hmem]
        obtain ⟨t, ht, hs⟩ := ih (st.1, st.2)
        exact ⟨t, ht, hs.cons c⟩
      · rw [if_neg hmem]
        obtain ⟨t, ht, hs⟩ := ih (st.1 ++ [c], st.2)
        exact ⟨c :: t, by simp [ht], hs.cons₂ c⟩

lemma dupRunAux_pairwise (d : ℕ → ℕ → Bool) :
    ∀ (l : List ℕ) (st : List ℕ × ℤ),
      st.1.Pairwise (fun a b => d b a = false) →
      (dupRunAux d st l).1.Pairwise (fun a b => d b a = false) := by
  intro l
  induction l with
  | nil =>
    intro st h
    simpa [dupRunAux] using h
  | cons c cs ih =>
    intro st h
    rw [dupRunAux_cons, dupStep_false_eq]
    by_cases hany : st.1.any (fun seen => d c seen) = true
    · rw [if_pos hany]; exact ih _ h
    · rw [if_neg hany]
      by_cases hmem : c ∈ st.1
      · rw [if_pos hmem]; exact ih _ h
      · rw [if_neg hmem]
        apply ih
        show (st.1 ++ [c]).Pairwise (fun a b => d b a = false)
        simp only [List.any_eq_true, not_exists, not_and,
          Bool.not_eq_true] at hany
        rw [List.pairwise_append]
        refine ⟨h, List.pairwise_singleton _ _, ?_⟩
        intro a ha b hb
        rcases List.mem_singleton.mp hb with rfl
        exact hany a ha

lemma dupRunAux_nodup (d : ℕ → ℕ → Bool) :
    ∀ (l : List ℕ) (st : List ℕ × ℤ),
      st.1.Nodup → (dupRunAux d st l).1.Nodup := by
  intro l
  induction l with
  | nil =>
    intro st h
    simpa [dupRunAux] using h
  | cons c cs ih =>
    intro st h
    rw [dupRunAux_cons, dupStep_false_eq]
    by_cases hany : st.1.any (fun seen => d c seen) = true
    · rw [if_pos hany]; exact ih _ h
    · rw [if_neg hany]
      by_cases hmem : c ∈ st.1
      · rw [if_pos hmem]; exact ih _ h
      · rw [if_neg hmem]
        apply ih
        show (st.1 ++ [c]).Nodup
        simp [List.nodup_append, h, hmem]

lemma dupStep_false_pair (d : ℕ → ℕ → Bool) (acc : List ℕ) (k : ℤ) (c : ℕ) :
    dupStep d false (acc, k) c =
      if acc.any (fun seen => d c seen) then (acc, k + 1)
      else if c ∈ acc then (acc, k) else (acc ++ [c], k) := by
  simp [dupStep]

lemma dupRunAux_count (d : ℕ → ℕ → Bool) (hself : ∀ c, d c c = true) :
    ∀ (l acc : List ℕ) (k : ℤ),
      ((dupRunAux d (acc, k) l).1.length : ℤ) + (dupRunAux d (acc, k) l).2
        = acc.length + k + l.length := by
  intro l
  induction l with
  | nil =>
    intro acc k
    simp [dupRunAux]
  | cons c cs ih =>
    intro acc k
    rw [dupRunAux_cons, dupStep_false_pair]
    by_cases hany : acc.any (fun seen => d c seen) = true
    · rw [if_pos hany]
      have h3 := ih acc (k + 1)
      simp only [List.length_cons]
      push_cast at h3 ⊢
      omega
    · rw [if_neg hany]
      by_cases hmem : c ∈ acc
      · exfalso
        simp only [List.any_eq_true, not_exists, not_and,
          Bool.not_eq_true] at hany
        have h2 := hany c hmem
        rw [hself c] at h2
        simp at h2
      · rw [if_neg hmem]
        have h3 := ih (acc ++ [c]) k
        simp only [List.length_append, List.length_singleton,
          List.length_cons, List.length_nil] at h3 ⊢
        push_cast at h3 ⊢
        omega

lemma dupRunAux_already_unique (d : ℕ → ℕ → Bool) :
    ∀ (l : List ℕ) (st : List ℕ × ℤ),
      (∀ x ∈ l, ∀ s ∈ st.1, d x s = false) →
      (∀ x ∈ l, x ∉ st.1) →
      l.Nodup →
      l.Pairwise (fun a b => d b a = false) →
      dupRunAux d st l = (st.1 ++ l, st.2) := by
  intro l
  induction l with
  | nil =>
    intro st _ _ _ _
    simp [dupRunAux]
  | cons c cs ih =>
    intro st hfalse hnotmem hnd hpw
    have hany : st.1.any (fun seen => d c seen) = false := by
      rw [List.any_eq_false]
      intro s hs
      simp [hfalse c (List.mem_cons_self c cs) s hs]
    rw [dupRunAux_cons, dupStep_false_eq, if_neg (by simp [hany]),
      if_neg (hnotmem c (List.mem_cons_self c cs))]
    rw [ih (st.1 ++ [c], st.2) ?_ ?_ (List.nodup_cons.mp hnd).2
      (List.pairwise_cons.mp hpw).2]
    · simp
    · intro x hx s hs
      rcases List.mem_append.mp hs with hs1 | hs2
      · exact hfalse x (List.mem_cons_of_mem c hx) s hs1
      · rcases List.mem_singleton.mp hs2 with rfl
        exact (List.pairwise_cons.mp hpw).1 x hx
    · intro x hx hmem
      rcases List.mem_append.mp hmem with hs1 | hs2
      · exact hnotmem x (List.mem_cons_of_mem c hx) hs1
      · rcases List.mem_singleton.mp hs2 with rfl
        exact (List.nodup_cons.mp hnd).1 hx

lemma dupRun_cons (d : ℕ → ℕ → Bool) (c : ℕ) (cs : List ℕ) :
    dupRun d (c :: cs)
      = dupRunAux d ([c], if d c c = true then 0 else -1) cs := by
  rw [dupRun, dupStep_true_start]

lemma dupRun_acc_shape (d : ℕ → ℕ → Bool) (c : ℕ) (cs : List ℕ) :
    ∃ t, (dupRun d (c :: cs)).1 = c :: t ∧ t.Sublist cs := by
  rw [dupRun_cons]
  obtain ⟨t, ht, hs⟩ :=
    dupRunAux_sublist d cs ([c], if d c c = true then 0 else -1)
  exact ⟨t, by simpa using ht, hs⟩

lemma dupRun_sublist (d : ℕ → ℕ → Bool) (l : List ℕ) :
    (dupRun d l).1.Sublist l := by
  cases l with
  | nil => simp [dupRun]
  | cons c cs =>
    obtain ⟨t, ht, hs⟩ := dupRun_acc_shape d c cs
    rw [ht]
    exact hs.cons₂ c

lemma dupRun_ne (d : ℕ → ℕ → Bool) (c : ℕ) (cs : List ℕ) :
    (dupRun d (c :: cs)).1 ≠ [] := by
  obtain ⟨t, ht, _⟩ := dupRun_acc_shape d c cs
  rw [ht]
  exact List.cons_ne_nil c t

lemma dupRun_pairwise (d : ℕ → ℕ → Bool) (l : List ℕ) :
    (dupRun d l).1.Pairwise (fun a b => d b a = false) := by
  cases l with
  | nil => simp [dupRun]
  | cons c cs =>
    rw [dupRun_cons]
    exact dupRunAux_pairwise d cs _ (List.pairwise_singleton _ _)

lemma dupRun_nodup (d : ℕ → ℕ → Bool) (l : List ℕ) :
    (dupRun d l).1.Nodup := by
  cases l with
  | nil => simp [dupRun]
  | cons c cs =>
    rw [dupRun_cons]
    exact dupRunAux_nodup d cs _ (List.nodup_singleton c)

lemma dupRun_count (d : ℕ → ℕ → Bool) (hself : ∀ c, d c c = true)
    (l : List ℕ) (hne : l ≠ []) :
    ((dupRun d l).1.length : ℤ) + (dupRun d l).2 = l.length := by
  obtain ⟨c, cs, rfl⟩ := List.exists_cons_of_ne_nil hne
  rw [dupRun_cons, if_pos (hself c)]
  have h3 := dupRunAux_count d hself cs [c] 0
  simp only [List.length_singleton, List.length_cons, List.length_nil] at h3 ⊢
  push_cast at h3 ⊢
  omega

lemma dupRun_already_unique (d : ℕ → ℕ → Bool) (l : List ℕ) (hne : l ≠ [])
    (hself : ∀ x ∈ l, d x x = true) (hnd : l.Nodup)
    (hpw : l.Pairwise (fun a b => d b a = false)) :
    dupRun d l = (l, 0) := by
  obtain ⟨c, cs, rfl⟩ := List.exists_cons_of_ne_nil hne
  rw [dupRun_cons, if_pos (hself c (List.mem_cons_self c cs))]
  rw [dupRunAux_already_unique d cs ([c], 0) ?_ ?_ (List.nodup_cons.mp hnd).2
    (List.pairwise_cons.mp hpw).2]
  · simp
  · intro x hx s hs
    rcases List.mem_singleton.mp hs with rfl
    exact (List.pairwise_cons.mp hpw).1 x hx
  · intro x hx hmem
    rcases List.mem_singleton.mp hmem with rfl
    exact (List.nodup_cons.mp hnd).1 hx

/-! ## Invariants of the post-rotation and refinement loops -/

lemma rotRunAux_cons (t1 t2 r : ℚ) (E : ℕ → ℚ) (rmsd : ℕ → ℕ → ℚ)
    (st : List ℕ × ℤ × ℤ) (c : ℕ) (cs : List ℕ) :
    rotRunAux t1 t2 r E rmsd st (c :: cs)
      = rotRunAux t1 t2 r E rmsd (rotStep t1 t2 r E rmsd false st c) cs := rfl

lemma rotStep_false_eq (t1 t2 r : ℚ) (E : ℕ → ℚ) (rmsd : ℕ → ℕ → ℚ)
    (st : List ℕ × ℤ × ℤ) (m : ℕ) :
    rotStep t1 t2 r E rmsd false st m =
      match st.1.find? (fun j => rotDupCheck t1 t2 r E rmsd m j) with
      | some j =>
          if |E m - E j| < t1 then (st.1, st.2.1 + 1, st.2.2)
          else (st.1, st.2.1, st.2.2 + 1)
      | none => (if m ∈ st.1 then st.1 else st.1 ++ [m], st.2.1, st.2.2) := by
  simp [rotStep]

lemma rotStep_true_eq (t1 t2 r : ℚ) (E : ℕ → ℚ) (rmsd : ℕ → ℕ → ℚ)
    (st : List ℕ × ℤ × ℤ) (m : ℕ) :
    rotStep t1 t2 r E rmsd true st m =
      match (st.1 ++ [m]).find? (fun j => rotDupCheck t1 t2 r E rmsd m j) with
      | some j =>
          if |E m - E j| < t1 then (st.1 ++ [m], st.2.1 + 1, st.2.2)
          else (st.1 ++ [m], st.2.1, st.2.2 + 1)
      | none => (if m ∈ st.1 ++ [m] then st.1 ++ [m] else (st.1 ++ [m]) ++ [m],
                 st.2.1, st.2.2) := by
  simp [rotStep]

lemma rotStep_true_start_acc (t1 t2 r : ℚ) (E : ℕ → ℚ) (rmsd : ℕ → ℕ → ℚ)
    (c : ℕ) :
    (rotStep t1 t2 r E rmsd true ([], -1, 0) c).1 = [c] := by
  rw [rotStep_true_eq]
  cases hfind : (([] : List ℕ) ++ [c]).find?
      (fun j => rotDupCheck t1 t2 r E rmsd c j) with
  | some j =>
    simp only [hfind]
    by_cases hlt : |E c - E j| < t1
    · rw [if_pos hlt]; rfl
    · rw [if_neg hlt]; rfl
  | none =>
    simp only [hfind]
    simp

lemma rotRunAux_pairwise (t1 t2 r : ℚ) (E : ℕ → ℚ) (rmsd : ℕ → ℕ → ℚ) :
    ∀ (l : List ℕ) (st : List ℕ × ℤ × ℤ),
      st.1.Pairwise (fun a b => rotDupCheck t1 t2 r E rmsd b a = false) →
      (rotRunAux t1 t2 r E rmsd st l).1.Pairwise
        (fun a b => rotDupCheck t1 t2 r E rmsd b a = false) := by
  intro l
  induction l with
  | nil =>
    intro st h
    simpa [rotRunAux] using h
  | cons c cs ih =>
    intro st h
    rw [rotRunAux_cons, rotStep_false_eq]
    cases hfind : st.1.find? (fun j => rotDupCheck t1 t2 r E rmsd c j) with
    | some j =>
      simp only [hfind]
      by_cases hlt : |E c - E j| < t1
      · rw [if_pos hlt]; exact ih _ h
      · rw [if_neg hlt]; exact ih _ h
    | none =>
      simp only [hfind]
      by_cases hmem : c ∈ st.1
      · rw [if_pos hmem]; exact ih _ h
      · rw [if_neg hmem]
        apply ih
        show (st.1 ++ [c]).Pairwise _
        rw [List.pairwise_append]
        refine ⟨h, List.pairwise_singleton _ _, ?_⟩
        intro a ha b hb
        rcases List.mem_singleton.mp hb with rfl
        have h2 := List.find?_eq_none.mp hfind a ha
        simpa using h2

lemma rot_run_pairwise (t1 t2 r : ℚ) (E : ℕ → ℚ) (rmsd : ℕ → ℕ → ℚ)
    (l : List ℕ) :
    (rot_run t1 t2 r E rmsd l).1.Pairwise
      (fun a b => rotDupCheck t1 t2 r E rmsd b a = false) := by
  cases l with
  | nil => simp [rot_run]
  | cons c cs =>
    rw [rot_run]
    apply rotRunAux_pairwise
    rw [rotStep_true_start_acc]
    exact List.pairwise_singleton _ _

lemma mult_min_step_outmols_pairwise (ewin t1 t2 r : ℚ) (rmsd : ℕ → ℕ → ℚ)
    (st : MultMinState) (o : Option RefConf)
    (h : st.outmols.Pairwise (fun a b => refDupCheck t1 t2 r rmsd b a = false)) :
    (mult_min_step ewin t1 t2 r rmsd st o).outmols.Pairwise
      (fun a b => refDupCheck t1 t2 r rmsd b a = false) := by
  cases o with
  | none => simpa [mult_min_step] using h
  | some c =>
    simp only [mult_min_step]
    by_cases hc : c.converged = 0 ∧ |c.energy - optMin st.globmin c.energy| < ewin
    · rw [if_pos hc]
      cases hfind : st.outmols.find? (fun s => refDupCheck t1 t2 r rmsd c s) with
      | some s =>
        simp only [hfind]
        by_cases hlt : |c.energy - s.energy| < t1
        · rw [if_pos hlt]; exact h
        · rw [if_neg hlt]; exact h
      | none =>
        simp only [hfind]
        show (st.outmols ++ [c]).Pairwise _
        rw [List.pairwise_append]
        refine ⟨h, List.pairwise_singleton _ _, ?_⟩
        intro a ha b hb
        rcases List.mem_singleton.mp hb with rfl
        have h2 := List.find?_eq_none.mp hfind a ha
        simpa using h2
    · rw [if_neg hc]
      exact h

lemma mult_min_foldl_pairwise (ewin t1 t2 r : ℚ) (rmsd : ℕ → ℕ → ℚ) :
    ∀ (l : List (Option RefConf)) (st : MultMinState),
      st.outmols.Pairwise (fun a b => refDupCheck t1 t2 r rmsd b a = false) →
      (l.foldl (mult_min_step ewin t1 t2 r rmsd) st).outmols.Pairwise
        (fun a b => refDupCheck t1 t2 r rmsd b a = false) := by
  intro l
  induction l with
  | nil =>
    intro st h
    simpa using h
  | cons o os ih =>
    intro st h
    rw [List.foldl_cons]
    exact ih _ (mult_min_step_outmols_pairwise ewin t1 t2 r rmsd st o h)

lemma mult_min_run_pairwise (ewin t1 t2 r : ℚ) (rmsd : ℕ → ℕ → ℚ)
    (l : List (Option RefConf)) :
    (mult_min_run ewin t1 t2 r rmsd l).outmols.Pairwise
      (fun a b => refDupCheck t1 t2 r rmsd b a = false) := by
  rw [mult_min_run]
  exact mult_min_foldl_pairwise ewin t1 t2 r rmsd l _ List.Pairwise.nil

lemma stageA_dup_self (t1 : ℚ) (E : ℕ → ℚ) (ht1 : 0 < t1) (c : ℕ) :
    stageA_dup t1 E c c = true := by
  simp [stageA_dup, sub_self, abs_zero, ht1]

lemma stageB_dup_self (t2 r : ℚ) (E : ℕ → ℚ) (rmsd : ℕ → ℕ → ℚ)
    (ht2 : 0 < t2) (hr : 0 < r) (hrmsd : ∀ c, rmsd c c = 0) (c : ℕ) :
    stageB_dup t2 r E rmsd c c = true := by
  simp [stageB_dup, sub_self, abs_zero, ht2, hrmsd c, hr]

lemma dupRun_ne_of_ne (d : ℕ → ℕ → Bool) (l : List ℕ) (hne : l ≠ []) :
    (dupRun d l).1 ≠ [] := by
  obtain ⟨c, cs, rfl⟩ := List.exists_cons_of_ne_nil hne
  exact dupRun_ne d c cs

/-! ## C1, C7, C10: theorems about the duplicate-filter passes -/

/-- C1: in the final accepted set of each of the three filtering passes — the
minimization-stage two-stage pass (min_after_embed), the post-rotation pass
(filter_after_rotation) and the refinement pass (mult_min) — no two distinct
conformers simultaneously have energy difference below `energy_threshold` and
RMSD below `rms_threshold`.  The hypothesis is the symmetry of the external
best-fit RMSD. -/
theorem accepted_sets_no_close_pair (t1 t2 r ewin : ℚ) (E : ℕ → ℚ)
    (rmsd : ℕ → ℕ → ℚ) (hsym : ∀ a b, rmsd a b = rmsd b a)
    (cids rotmols : List ℕ) (inmols : List (Option RefConf)) :
    (min_after_embed_filter t1 t2 r E rmsd cids).1.Pairwise
        (fun a b => ¬(|E a - E b| < t2 ∧ rmsd a b < r))
    ∧ (rot_run t1 t2 r E rmsd rotmols).1.Pairwise
        (fun a b => ¬(|E a - E b| < t2 ∧ rmsd a b < r))
    ∧ (mult_min_run ewin t1 t2 r rmsd inmols).outmols.Pairwise
        (fun a b => ¬(|a.energy - b.energy| < t2 ∧ rmsd a.cid b.cid < r)) := by
  refine ⟨?_, ?_, ?_⟩
  · have heq : (min_after_embed_filter t1 t2 r E rmsd cids).1
        = (dupRun (stageB_dup t2 r E rmsd)
            (dupRun (stageA_dup t1 E) (sortByEnergy E cids)).1).1 := rfl
    rw [heq]
    refine (dupRun_pairwise (stageB_dup t2 r E rmsd) _).imp ?_
    intro a b hab hc
    rw [stageB_dup] at hab
    have h1 : |E b - E a| < t2 := by rw [abs_sub_comm]; exact hc.1
    have h2 : rmsd a b < r := hc.2
    simp [h1, h2] at hab
  · refine (rot_run_pairwise t1 t2 r E rmsd rotmols).imp ?_
    intro a b hab hc
    rw [rotDupCheck] at hab
    have h1 : |E b - E a| < t2 := by rw [abs_sub_comm]; exact hc.1
    have h2 : rmsd b a < r := by rw [hsym]; exact hc.2
    simp [h1, h2] at hab
  · refine (mult_min_run_pairwise ewin t1 t2 r rmsd inmols).imp ?_
    intro a b hab hc
    rw [refDupCheck] at hab
    have h1 : |b.energy - a.energy| < t2 := by rw [abs_sub_comm]; exact hc.1
    have h2 : rmsd b.cid a.cid < r := by rw [hsym]; exact hc.2
    simp [h1, h2] at hab

/-- Witness for C1 at a concrete symmetric RMSD function and concrete
(empty) candidate lists. -/
theorem accepted_sets_no_close_pair_witness :
    (min_after_embed_filter 1 1 1 (fun _ => (0 : ℚ)) (fun _ _ => (0 : ℚ))
        []).1.Pairwise
        (fun _ _ => ¬(|(0 : ℚ) - 0| < 1 ∧ (0 : ℚ) < 1))
    ∧ (rot_run 1 1 1 (fun _ => (0 : ℚ)) (fun _ _ => (0 : ℚ)) []).1.Pairwise
        (fun _ _ => ¬(|(0 : ℚ) - 0| < 1 ∧ (0 : ℚ) < 1))
    ∧ (mult_min_run 1 1 1 1 (fun _ _ => (0 : ℚ)) []).outmols.Pairwise
        (fun a b => ¬(|a.energy - b.energy| < 1 ∧ (0 : ℚ) < 1)) :=
  accepted_sets_no_close_pair 1 1 1 1 (fun _ => 0) (fun _ _ => 0)
    (fun _ _ => rfl) [] [] []

/-- C7 counterexample: on the empty ensemble (which is its own filter output)
a re-run of the Duplicate Filter reports duplicate counts −1 and −1, not
zero — the claim's "both reported duplicate counts are zero" fails. -/
theorem dup_filter_not_idempotent_on_empty_cex :
    (min_after_embed_filter 1 1 1 (fun _ => (0 : ℚ)) (fun _ _ => (0 : ℚ))
        ((min_after_embed_filter 1 1 1 (fun _ => (0 : ℚ)) (fun _ _ => (0 : ℚ))
          []).1)).2.1 ≠ 0 := by
  decide

/-- C7 amended: for every nonempty input (with the thresholds positive and
the engine's self-RMSD zero, as in any real configuration), re-running the
two-stage Duplicate Filter on its own output accepts every conformer again
and reports both duplicate counts as zero. -/
theorem dup_filter_idempotent (t1 t2 r : ℚ) (E : ℕ → ℚ) (rmsd : ℕ → ℕ → ℚ)
    (cids : List ℕ) (ht1 : 0 < t1) (ht2 : 0 < t2) (hr : 0 < r)
    (hrmsd : ∀ c, rmsd c c = 0) (hne : cids ≠ []) :
    min_after_embed_filter t1 t2 r E rmsd
        ((min_after_embed_filter t1 t2 r E rmsd cids).1)
      = ((min_after_embed_filter t1 t2 r E rmsd cids).1, 0, 0) := by
  have hsortedsorted : (sortByEnergy E cids).Sorted (energyLE E) :=
    List.sorted_insertionSort (energyLE E) cids
  have hfeq : (min_after_embed_filter t1 t2 r E rmsd cids).1
      = (dupRun (stageB_dup t2 r E rmsd)
          (dupRun (stageA_dup t1 E) (sortByEnergy E cids)).1).1 := rfl
  have hsub1 : (dupRun (stageA_dup t1 E) (sortByEnergy E cids)).1.Sublist
      (sortByEnergy E cids) := dupRun_sublist _ _
  have hsub2 : (dupRun (stageB_dup t2 r E rmsd)
      (dupRun (stageA_dup t1 E) (sortByEnergy E cids)).1).1.Sublist
      (dupRun (stageA_dup t1 E) (sortByEnergy E cids)).1 := dupRun_sublist _ _
  have hperm : (sortByEnergy E cids).Perm cids :=
    List.perm_insertionSort (energyLE E) cids
  have hsne : sortByEnergy E cids ≠ [] := by
    intro h0
    apply hne
    apply List.length_eq_zero.mp
    rw [← hperm.length_eq, h0]
    rfl
  have hane : (dupRun (stageA_dup t1 E) (sortByEnergy E cids)).1 ≠ [] :=
    dupRun_ne_of_ne _ _ hsne
  have hselne : (dupRun (stageB_dup t2 r E rmsd)
      (dupRun (stageA_dup t1 E) (sortByEnergy E cids)).1).1 ≠ [] :=
    dupRun_ne_of_ne _ _ hane
  have hselSorted : (dupRun (stageB_dup t2 r E rmsd)
      (dupRun (stageA_dup t1 E) (sortByEnergy E cids)).1).1.Sorted
      (energyLE E) :=
    List.Pairwise.sublist (hsub2.trans hsub1) hsortedsorted
  have hselNodup : (dupRun (stageB_dup t2 r E rmsd)
      (dupRun (stageA_dup t1 E) (sortByEnergy E cids)).1).1.Nodup :=
    dupRun_nodup _ _
  have hpwB : (dupRun (stageB_dup t2 r E rmsd)
      (dupRun (stageA_dup t1 E) (sortByEnergy E cids)).1).1.Pairwise
      (fun x y => stageB_dup t2 r E rmsd y x = false) :=
    dupRun_pairwise _ _
  have hpwA : (dupRun (stageB_dup t2 r E rmsd)
      (dupRun (stageA_dup t1 E) (sortByEnergy E cids)).1).1.Pairwise
      (fun x y => stageA_dup t1 E y x = false) :=
    List.Pairwise.sublist hsub2 (dupRun_pairwise (stageA_dup t1 E) _)
  rw [hfeq]
  have hsort2 : sortByEnergy E (dupRun (stageB_dup t2 r E rmsd)
      (dupRun (stageA_dup t1 E) (sortByEnergy E cids)).1).1
      = (dupRun (stageB_dup t2 r E rmsd)
          (dupRun (stageA_dup t1 E) (sortByEnergy E cids)).1).1 :=
    List.Sorted.insertionSort_eq hselSorted
  have hA2 : dupRun (stageA_dup t1 E) (dupRun (stageB_dup t2 r E rmsd)
      (dupRun (stageA_dup t1 E) (sortByEnergy E cids)).1).1
      = ((dupRun (stageB_dup t2 r E rmsd)
          (dupRun (stageA_dup t1 E) (sortByEnergy E cids)).1).1, 0) :=
    dupRun_already_unique _ _ hselne
      (fun x _ => stageA_dup_self t1 E ht1 x) hselNodup hpwA
  have hB2 : dupRun (stageB_dup t2 r E rmsd) (dupRun (stageB_dup t2 r E rmsd)
      (dupRun (stageA_dup t1 E) (sortByEnergy E cids)).1).1
      = ((dupRun (stageB_dup t2 r E rmsd)
          (dupRun (stageA_dup t1 E) (sortByEnergy E cids)).1).1, 0) :=
    dupRun_already_unique _ _ hselne
      (fun x _ => stageB_dup_self t2 r E rmsd ht2 hr hrmsd x) hselNodup hpwB
  simp only [min_after_embed_filter, hsort2, hA2, hB2]

/-- Witness for C7 amended at a concrete nonempty input. -/
theorem dup_filter_idempotent_witness :
    min_after_embed_filter 1 1 1 (fun _ => (0 : ℚ)) (fun _ _ => (0 : ℚ))
        ((min_after_embed_filter 1 1 1 (fun _ => (0 : ℚ)) (fun _ _ => (0 : ℚ))
          [5]).1)
      = ((min_after_embed_filter 1 1 1 (fun _ => (0 : ℚ))
          (fun _ _ => (0 : ℚ)) [5]).1, 0, 0) :=
  dup_filter_idempotent 1 1 1 (fun _ => 0) (fun _ _ => 0) [5]
    (by norm_num) (by norm_num) (by norm_num) (fun _ => rfl) (by simp)

/-- C10 counterexample: for the empty list of embedded conformer ids the two
duplicate counters are reported as −1 each (their initial values, never
corrected by a first conformer), so embedded-count = prefilter + geometry +
unique fails: 0 ≠ −1 + −1 + 0. -/
theorem filter_counter_conservation_empty_cex :
    ¬ ((([] : List ℕ).length : ℤ)
      = (min_after_embed_filter 2 3 1 (fun _ => (0 : ℚ)) (fun _ _ => (0 : ℚ))
          []).2.1
        + (min_after_embed_filter 2 3 1 (fun _ => (0 : ℚ))
            (fun _ _ => (0 : ℚ)) []).2.2
        + ((min_after_embed_filter 2 3 1 (fun _ => (0 : ℚ))
            (fun _ _ => (0 : ℚ)) []).1.length : ℤ)) := by
  decide

/-- C10 amended: for every nonempty list of embedded conformer ids (with the
thresholds positive and the engine's self-RMSD zero), the number of embedded
conformers equals the reported prefilter-duplicate count plus the reported
geometry-duplicate count plus the final unique-conformer count; the −1
initial values of the two counters exactly compensate the first conformer's
comparison against itself in each stage. -/
theorem filter_counter_conservation (t1 t2 r : ℚ) (E : ℕ → ℚ)
    (rmsd : ℕ → ℕ → ℚ) (cids : List ℕ) (ht1 : 0 < t1) (ht2 : 0 < t2)
    (hr : 0 < r) (hrmsd : ∀ c, rmsd c c = 0) (hne : cids ≠ []) :
    (cids.length : ℤ)
      = (min_after_embed_filter t1 t2 r E rmsd cids).2.1
        + (min_after_embed_filter t1 t2 r E rmsd cids).2.2
        + ((min_after_embed_filter t1 t2 r E rmsd cids).1.length : ℤ) := by
  have hperm : (sortByEnergy E cids).Perm cids :=
    List.perm_insertionSort (energyLE E) cids
  have hsne : sortByEnergy E cids ≠ [] := by
    intro h0
    apply hne
    apply List.length_eq_zero.mp
    rw [← hperm.length_eq, h0]
    rfl
  have hane : (dupRun (stageA_dup t1 E) (sortByEnergy E cids)).1 ≠ [] :=
    dupRun_ne_of_ne _ _ hsne
  have hA := dupRun_count (stageA_dup t1 E)
    (fun c => stageA_dup_self t1 E ht1 c) (sortByEnergy E cids) hsne
  have hB := dupRun_count (stageB_dup t2 r E rmsd)
    (fun c => stageB_dup_self t2 r E rmsd ht2 hr hrmsd c)
    (dupRun (stageA_dup t1 E) (sortByEnergy E cids)).1 hane
  have h1 : (min_after_embed_filter t1 t2 r E rmsd cids).1
      = (dupRun (stageB_dup t2 r E rmsd)
          (dupRun (stageA_dup t1 E) (sortByEnergy E cids)).1).1 := rfl
  have h2 : (min_after_embed_filter t1 t2 r E rmsd cids).2.1
      = (dupRun (stageA_dup t1 E) (sortByEnergy E cids)).2 := rfl
  have h3 : (min_after_embed_filter t1 t2 r E rmsd cids).2.2
      = (dupRun (stageB_dup t2 r E rmsd)
          (dupRun (stageA_dup t1 E) (sortByEnergy E cids)).1).2 := rfl
  rw [h1, h2, h3]
  have hlen := hperm.length_eq
  omega

/-! ## C4: running global minimum and rejection policy of mult_min -/

lemma optMin_le (g : Option ℚ) (e : ℚ) : optMin g e ≤ e := by
  cases g with
  | none => exact le_refl e
  | some x => exact min_le_right x e

lemma mult_min_step_globmin (ewin t1 t2 r : ℚ) (rmsd : ℕ → ℕ → ℚ)
    (st : MultMinState) (o : Option RefConf) :
    (mult_min_step ewin t1 t2 r rmsd st o).globmin = globminUpd st.globmin o := by
  cases o with
  | none => rfl
  | some c =>
    simp only [mult_min_step, globminUpd]
    by_cases hc : c.converged = 0 ∧ |c.energy - optMin st.globmin c.energy| < ewin
    · rw [if_pos hc]
      cases hfind : st.outmols.find? (fun s => refDupCheck t1 t2 r rmsd c s) with
      | some s =>
        simp only [hfind]
        by_cases hlt : |c.energy - s.energy| < t1
        · rw [if_pos hlt]
        · rw [if_neg hlt]
      | none => simp only [hfind]
    · rw [if_neg hc]

lemma mult_min_foldl_globmin (ewin t1 t2 r : ℚ) (rmsd : ℕ → ℕ → ℚ) :
    ∀ (l : List (Option RefConf)) (st : MultMinState),
      (l.foldl (mult_min_step ewin t1 t2 r rmsd) st).globmin
        = l.foldl globminUpd st.globmin := by
  intro l
  induction l with
  | nil => intro st; rfl
  | cons o os ih =>
    intro st
    rw [List.foldl_cons, List.foldl_cons, ih, mult_min_step_globmin]

lemma foldl_globminUpd_some :
    ∀ (l : List (Option RefConf)) (g : ℚ),
      l.foldl globminUpd (some g) = some ((processedEnergies l).foldl min g) := by
  intro l
  induction l with
  | nil => intro g; rfl
  | cons o os ih =>
    intro g
    cases o with
    | none =>
      rw [List.foldl_cons]
      show os.foldl globminUpd (some g) = _
      rw [ih]
      simp [processedEnergies]
    | some c =>
      rw [List.foldl_cons]
      show os.foldl globminUpd (some (optMin (some g) c.energy)) = _
      rw [ih]
      simp [processedEnergies, optMin]

lemma foldl_globminUpd_none :
    ∀ l : List (Option RefConf),
      l.foldl globminUpd none = leastEnergySoFar l := by
  intro l
  induction l with
  | nil => rfl
  | cons o os ih =>
    cases o with
    | none =>
      rw [List.foldl_cons]
      show os.foldl globminUpd none = _
      rw [ih]
      simp [leastEnergySoFar, processedEnergies]
    | some c =>
      rw [List.foldl_cons]
      show os.foldl globminUpd (some (optMin none c.energy)) = _
      rw [foldl_globminUpd_some]
      simp [leastEnergySoFar, processedEnergies, optMin]

lemma foldl_min_isLeast :
    ∀ (es : List ℚ) (e : ℚ),
      (es.foldl min e ≤ e ∧ ∀ x ∈ es, es.foldl min e ≤ x)
      ∧ (es.foldl min e = e ∨ es.foldl min e ∈ es) := by
  intro es
  induction es with
  | nil =>
    intro e
    exact ⟨⟨le_refl e, fun x hx => absurd hx (List.not_mem_nil x)⟩, Or.inl rfl⟩
  | cons y ys ih =>
    intro e
    rw [List.foldl_cons]
    obtain ⟨⟨hle, hall⟩, hmem⟩ := ih (min e y)
    refine ⟨⟨le_trans hle (min_le_left e y), ?_⟩, ?_⟩
    · intro x hx
      rcases List.mem_cons.mp hx with rfl | hx2
      · exact le_trans hle (min_le_right e x)
      · exact hall x hx2
    · rcases hmem with heq | hm
      · rcases min_choice e y with h1 | h1
        · exact Or.inl (heq.trans h1)
        · exact Or.inr (by rw [heq, h1]; exact List.mem_cons_self y ys)
      · exact Or.inr (List.mem_cons_of_mem y hm)

/-- C4: the refinement loop's `globmin` after processing a prefix equals the
least energy of all (non-`None`) conformers processed so far in input order
(conjuncts 1–2), the running minimum being updated before each conformer's
acceptance test; one step rejects a conformer into the high-energy counter iff
it failed to converge or its energy reaches the updated running minimum plus
`ewin` (conjunct 3, where "exceeds" is the code's inclusive comparison:
`abs(energy - globmin) < ewin` failing); a rejected conformer changes nothing
but `globmin` and `n_high` — it is not counted as a duplicate and is not
compared against the accepted set (conjunct 4); and a conformer passing the
test is compared against the accepted set, ending either appended to
`outmols` with both duplicate counters unchanged, or discarded with exactly
one duplicate counted (conjunct 5). -/
theorem mult_min_refinement_policy (ewin t1 t2 r : ℚ) (rmsd : ℕ → ℕ → ℚ)
    (inmols : List (Option RefConf)) (st : MultMinState) (c : RefConf) :
    (mult_min_run ewin t1 t2 r rmsd inmols).globmin = leastEnergySoFar inmols
    ∧ (∀ m, leastEnergySoFar inmols = some m →
        m ∈ processedEnergies inmols ∧ ∀ e ∈ processedEnergies inmols, m ≤ e)
    ∧ ((mult_min_step ewin t1 t2 r rmsd st (some c)).nHigh = st.nHigh + 1
        ↔ (¬c.converged = 0 ∨ optMin st.globmin c.energy + ewin ≤ c.energy))
    ∧ ((mult_min_step ewin t1 t2 r rmsd st (some c)).nHigh = st.nHigh + 1 →
        mult_min_step ewin t1 t2 r rmsd st (some c)
          = { st with globmin := some (optMin st.globmin c.energy),
                      nHigh := st.nHigh + 1 })
    ∧ ((mult_min_step ewin t1 t2 r rmsd st (some c)).nHigh = st.nHigh →
        (c.converged = 0 ∧ c.energy < optMin st.globmin c.energy + ewin)
        ∧ ((mult_min_step ewin t1 t2 r rmsd st (some c)).outmols
              = st.outmols ++ [c]
            ∧ (mult_min_step ewin t1 t2 r rmsd st (some c)).nDupEnergy
                = st.nDupEnergy
            ∧ (mult_min_step ewin t1 t2 r rmsd st (some c)).nDupRms
                = st.nDupRms
          ∨ (mult_min_step ewin t1 t2 r rmsd st (some c)).outmols = st.outmols
            ∧ (mult_min_step ewin t1 t2 r rmsd st (some c)).nDupEnergy
                + (mult_min_step ewin t1 t2 r rmsd st (some c)).nDupRms
                = st.nDupEnergy + st.nDupRms + 1)) := by
  have hpart1 : (mult_min_run ewin t1 t2 r rmsd inmols).globmin
      = leastEnergySoFar inmols := by
    rw [mult_min_run, mult_min_foldl_globmin]
    exact foldl_globminUpd_none inmols
  have hpart2 : ∀ m, leastEnergySoFar inmols = some m →
      m ∈ processedEnergies inmols ∧ ∀ e ∈ processedEnergies inmols, m ≤ e := by
    intro m hm
    cases hpe : processedEnergies inmols with
    | nil =>
      rw [leastEnergySoFar, hpe] at hm
      exact absurd hm (by simp)
    | cons e es =>
      rw [leastEnergySoFar, hpe] at hm
      have hm2 : some (es.foldl min e) = some m := hm
      have hmeq : es.foldl min e = m := Option.some.inj hm2
      obtain ⟨⟨hle, hall⟩, hmem⟩ := foldl_min_isLeast es e
      constructor
      · rcases hmem with heq | hin
        · rw [← hmeq, heq]; exact List.mem_cons_self e es
        · rw [← hmeq]; exact List.mem_cons_of_mem e hin
      · intro x hx
        rcases List.mem_cons.mp hx with rfl | hx2
        · rw [← hmeq]; exact hle
        · rw [← hmeq]; exact hall x hx2
  have hcond : (c.converged = 0
        ∧ |c.energy - optMin st.globmin c.energy| < ewin)
      ↔ (c.converged = 0
        ∧ c.energy < optMin st.globmin c.energy + ewin) := by
    have habs : |c.energy - optMin st.globmin c.energy|
        = c.energy - optMin st.globmin c.energy :=
      abs_of_nonneg (sub_nonneg.mpr (optMin_le _ _))
    rw [habs]
    constructor
    · rintro ⟨h1, h2⟩; exact ⟨h1, by linarith⟩
    · rintro ⟨h1, h2⟩; exact ⟨h1, by linarith⟩
  refine ⟨hpart1, hpart2, ?_⟩
  by_cases hc : c.converged = 0 ∧ |c.energy - optMin st.globmin c.energy| < ewin
  · have hwind := hcond.mp hc
    have hana : (mult_min_step ewin t1 t2 r rmsd st (some c)).nHigh = st.nHigh
        ∧ ((mult_min_step ewin t1 t2 r rmsd st (some c)).outmols
              = st.outmols ++ [c]
            ∧ (mult_min_step ewin t1 t2 r rmsd st (some c)).nDupEnergy
                = st.nDupEnergy
            ∧ (mult_min_step ewin t1 t2 r rmsd st (some c)).nDupRms
                = st.nDupRms
          ∨ (mult_min_step ewin t1 t2 r rmsd st (some c)).outmols = st.outmols
            ∧ (mult_min_step ewin t1 t2 r rmsd st (some c)).nDupEnergy
                + (mult_min_step ewin t1 t2 r rmsd st (some c)).nDupRms
                = st.nDupEnergy + st.nDupRms + 1) := by
      simp only [mult_min_step]
      rw [if_pos hc]
      cases hfind : st.outmols.find? (fun s => refDupCheck t1 t2 r rmsd c s) with
      | some s =>
        simp only [hfind]
        by_cases hlt : |c.energy - s.energy| < t1
        · rw [if_pos hlt]
          refine ⟨rfl, Or.inr ⟨rfl, ?_⟩⟩
          show st.nDupEnergy + 1 + st.nDupRms = st.nDupEnergy + st.nDupRms + 1
          omega
        · rw [if_neg hlt]
          refine ⟨rfl, Or.inr ⟨rfl, ?_⟩⟩
          show st.nDupEnergy + (st.nDupRms + 1) = st.nDupEnergy + st.nDupRms + 1
          omega
      | none =>
        simp only [hfind]
        simp
    refine ⟨?_, ?_, ?_⟩
    · constructor
      · intro h
        rw [hana.1] at h
        omega
      · rintro (hnc | hge)
        · exact absurd hwind.1 hnc
        · exfalso; have := hwind.2; linarith
    · intro h
      rw [hana.1] at h
      omega
    · intro _
      exact ⟨hwind, hana.2⟩
  · have hstep : mult_min_step ewin t1 t2 r rmsd st (some c)
        = { st with globmin := some (optMin st.globmin c.energy),
                    nHigh := st.nHigh + 1 } := by
      simp only [mult_min_step]
      rw [if_neg hc]
    have hR : ¬c.converged = 0 ∨ optMin st.globmin c.energy + ewin ≤ c.energy := by
      rw [hcond] at hc
      by_cases hcv : c.converged = 0
      · right
        have hnl : ¬ c.energy < optMin st.globmin c.energy + ewin :=
          fun hlt => hc ⟨hcv, hlt⟩
        exact not_lt.mp hnl
      · left; exact hcv
    refine ⟨⟨fun _ => hR, fun _ => by rw [hstep]⟩, fun _ => hstep, ?_⟩
    intro h
    rw [hstep] at h
    simp at h

/-- Witness for C4 at a concrete state and conformer: the empty input list
and a converged conformer of energy 0 processed from the initial state. -/
theorem mult_min_refinement_policy_witness :
    (mult_min_run 1 1 1 1 (fun _ _ => (0 : ℚ)) []).globmin
        = leastEnergySoFar []
    ∧ (∀ m, leastEnergySoFar ([] : List (Option RefConf)) = some m →
        m ∈ processedEnergies [] ∧ ∀ e ∈ processedEnergies [], m ≤ e)
    ∧ ((mult_min_step 1 1 1 1 (fun _ _ => (0 : ℚ)) sampleState
          (some sampleConf)).nHigh = sampleState.nHigh + 1
        ↔ (¬sampleConf.converged = 0
            ∨ optMin sampleState.globmin sampleConf.energy + 1
                ≤ sampleConf.energy))
    ∧ ((mult_min_step 1 1 1 1 (fun _ _ => (0 : ℚ)) sampleState
          (some sampleConf)).nHigh = sampleState.nHigh + 1 →
        mult_min_step 1 1 1 1 (fun _ _ => (0 : ℚ)) sampleState
            (some sampleConf)
          = { sampleState with
              globmin := some (optMin sampleState.globmin sampleConf.energy),
              nHigh := sampleState.nHigh + 1 })
    ∧ ((mult_min_step 1 1 1 1 (fun _ _ => (0 : ℚ)) sampleState
          (some sampleConf)).nHigh = sampleState.nHigh →
        (sampleConf.converged = 0
          ∧ sampleConf.energy
              < optMin sampleState.globmin sampleConf.energy + 1)
        ∧ ((mult_min_step 1 1 1 1 (fun _ _ => (0 : ℚ)) sampleState
              (some sampleConf)).outmols = sampleState.outmols ++ [sampleConf]
            ∧ (mult_min_step 1 1 1 1 (fun _ _ => (0 : ℚ)) sampleState
                (some sampleConf)).nDupEnergy = sampleState.nDupEnergy
            ∧ (mult_min_step 1 1 1 1 (fun _ _ => (0 : ℚ)) sampleState
                (some sampleConf)).nDupRms = sampleState.nDupRms
          ∨ (mult_min_step 1 1 1 1 (fun _ _ => (0 : ℚ)) sampleState
                (some sampleConf)).outmols = sampleState.outmols
            ∧ (mult_min_step 1 1 1 1 (fun _ _ => (0 : ℚ)) sampleState
                (some sampleConf)).nDupEnergy
              + (mult_min_step 1 1 1 1 (fun _ _ => (0 : ℚ)) sampleState
                  (some sampleConf)).nDupRms
                = sampleState.nDupEnergy + sampleState.nDupRms + 1)) :=
  mult_min_refinement_policy 1 1 1 1 (fun _ _ => 0) [] sampleState sampleConf

/-! ## C9: examination orders of the passes -/

/-- C9 counterexample: the post-rotation pass is not the refinement pass, yet
it examines candidates in file order — here a two-conformer file whose
energies are 5 then 3, examined in that order, which is not non-decreasing
energy order. -/
theorem post_rotation_not_energy_sorted_cex :
    ¬ ((filter_after_rotation_order [0, 1]).map
          (fun i => if i = 0 then (5 : ℚ) else 3)).Sorted (· ≤ ·) := by
  intro h
  have h2 : ((5 : ℚ) :: [3]).Sorted (· ≤ ·) := by
    simpa [filter_after_rotation_order] using h
  have h5 : (5 : ℚ) ≤ 3 :=
    (List.sorted_cons.mp h2).1 3 (List.mem_singleton_self 3)
  norm_num at h5

/-- C9 amended: the minimization-stage pass examines candidates in
non-decreasing energy order (it sorts them first), while both the
post-rotation pass and the refinement pass examine them in input/file
order — the refinement pass is not the only exception. -/
theorem pass_examination_orders (E : ℕ → ℚ) (cids rotmols : List ℕ)
    (inmols : List (Option RefConf)) :
    ((min_after_embed_order E cids).map E).Sorted (· ≤ ·)
    ∧ filter_after_rotation_order rotmols = rotmols
    ∧ mult_min_order inmols = inmols := by
  refine ⟨?_, rfl, rfl⟩
  have h := List.sorted_insertionSort (energyLE E) cids
  rw [min_after_embed_order, sortByEnergy]
  exact List.pairwise_map.mpr (h.imp (fun hab => hab))

/-- Witness for C10 amended at a concrete one-element input. -/
theorem filter_counter_conservation_witness :
    (([3] : List ℕ).length : ℤ)
      = (min_after_embed_filter 1 1 1 (fun _ => (0 : ℚ)) (fun _ _ => (0 : ℚ))
          [3]).2.1
        + (min_after_embed_filter 1 1 1 (fun _ => (0 : ℚ))
            (fun _ _ => (0 : ℚ)) [3]).2.2
        + ((min_after_embed_filter 1 1 1 (fun _ => (0 : ℚ))
            (fun _ _ => (0 : ℚ)) [3]).1.length : ℤ) :=
  filter_counter_conservation 1 1 1 (fun _ => 0) (fun _ _ => 0) [3]
    (by norm_num) (by norm_num) (by norm_num) (fun _ => rfl) (by simp)

end RotaConfort
